import Mathlib

/-!
Verification development for the PDF table-extraction application
(`aplicativo_funcional_finalpdf.py`).

Strings are modelled as lists of characters (`Str`).  The per-table
processing pipeline (lines 63-90 of the source), the aggregation metrics
(lines 100-111) and the CSV exporter (line 138) are embedded as executable
Lean functions and the spec's claims are settled against them.
-/

/-- A Python string, modelled as its list of characters. -/
abbrev Str := List Char

/-- Convert a Lean string literal to the `Str` model. -/
def str (s : String) : Str := s.data

/-- Python's whitespace class: the set of characters for which
`str.isspace()` holds and which `\s` matches in a Unicode pattern
(ASCII `\t\n\v\f\r`, space, the separators 0x1C-0x1F, NEL, NBSP and the
Unicode space separators). -/
def pyIsSpace (c : Char) : Bool :=
  let n := c.toNat
  (9 ≤ n && n ≤ 13) || n == 32 || (28 ≤ n && n ≤ 31) || n == 0x85 || n == 0xA0 ||
  n == 0x1680 || (0x2000 ≤ n && n ≤ 0x200A) || n == 0x2028 || n == 0x2029 ||
  n == 0x202F || n == 0x205F || n == 0x3000

/-- The ranges of Unicode decimal digits (general category Nd): the set of
characters matched by `\d` in a Python `re` pattern applied to a `str`. -/
def digitRanges : List (Nat × Nat) :=
  [(0x30, 0x39), (0x660, 0x669), (0x6F0, 0x6F9), (0x7C0, 0x7C9),
   (0x966, 0x96F), (0x9E6, 0x9EF), (0xA66, 0xA6F), (0xAE6, 0xAEF),
   (0xB66, 0xB6F), (0xBE6, 0xBEF), (0xC66, 0xC6F), (0xCE6, 0xCEF),
   (0xD66, 0xD6F), (0xDE6, 0xDEF), (0xE50, 0xE59), (0xED0, 0xED9),
   (0xF20, 0xF29), (0x1040, 0x1049), (0x1090, 0x1099), (0x17E0, 0x17E9),
   (0x1810, 0x1819), (0x1946, 0x194F), (0x19D0, 0x19D9), (0x1A80, 0x1A89),
   (0x1A90, 0x1A99), (0x1B50, 0x1B59), (0x1BB0, 0x1BB9), (0x1C40, 0x1C49),
   (0x1C50, 0x1C59), (0xA620, 0xA629), (0xA8D0, 0xA8D9), (0xA900, 0xA909),
   (0xA9D0, 0xA9D9), (0xA9F0, 0xA9F9), (0xAA50, 0xAA59), (0xABF0, 0xABF9),
   (0xFF10, 0xFF19), (0x104A0, 0x104A9), (0x10D30, 0x10D39),
   (0x11066, 0x1106F), (0x110F0, 0x110F9), (0x11136, 0x1113F),
   (0x111D0, 0x111D9), (0x112F0, 0x112F9), (0x11450, 0x11459),
   (0x114D0, 0x114D9), (0x11650, 0x11659), (0x116C0, 0x116C9),
   (0x11730, 0x11739), (0x118E0, 0x118E9), (0x11950, 0x11959),
   (0x11C50, 0x11C59), (0x11D50, 0x11D59), (0x11DA0, 0x11DA9),
   (0x16A60, 0x16A69), (0x16AC0, 0x16AC9), (0x16B50, 0x16B59),
   (0x1D7CE, 0x1D7FF), (0x1E140, 0x1E149), (0x1E2F0, 0x1E2F9),
   (0x1E950, 0x1E959), (0x1FBF0, 0x1FBF9)]

/-- Python regex digit class `\d` on a `str` subject: a Unicode decimal digit. -/
def pyDigit (c : Char) : Bool :=
  digitRanges.any (fun p => p.1 ≤ c.toNat && c.toNat ≤ p.2)

/-- Source line 85: `re.match(r'^\d+$', s)` (via `pandas.Series.str.match`).
In Python `re`, `$` also matches just before one trailing newline, so the
subject may end in a single `'\n'` after the digits. -/
def pyMatchDigits (s : Str) : Bool :=
  let t := if s.getLast? = some '\n' then s.dropLast else s
  (!t.isEmpty) && t.all pyDigit

/-- One step of `re.sub(r'\s+', ' ', s)`: the Bool records whether the
previous character was part of a whitespace run already replaced. -/
def collapseAux : Bool → Str → Str
  | _, [] => []
  | prevSp, c :: r =>
    if pyIsSpace c then
      if prevSp then collapseAux true r else ' ' :: collapseAux true r
    else c :: collapseAux false r

/-- Source line 82 first half: `re.sub(r'\s+', ' ', s)` — every maximal run
of whitespace becomes a single ASCII space. -/
def collapse (s : Str) : Str := collapseAux false s

/-- Left half of Python `str.strip()`: drop leading whitespace. -/
def stripL (s : Str) : Str := s.dropWhile pyIsSpace

/-- Right half of Python `str.strip()`: drop trailing whitespace. -/
def stripR : Str → Str
  | [] => []
  | c :: r =>
    let t := stripR r
    if t.isEmpty && pyIsSpace c then [] else c :: t

/-- Source line 82: the cell normalizer
`lambda x: re.sub(r'\s+', ' ', str(x)).strip()` on a string argument. -/
def normWs (s : Str) : Str := stripR (stripL (collapse s))

/-!  The per-table pipeline (source lines 63-90).

A raw grid (`camelot` table) is a list of rows, each row a list of cell
strings.  `df.replace('', pd.NA)` turns empty cells into the missing-value
sentinel, modelled by `Option Str` with `none` for `pd.NA`. -/

/-- A raw extracted grid: rows of raw cell strings. -/
abbrev Grid := List (List Str)

/-- Source line 65: `df.replace('', pd.NA)` on one cell. -/
def toNa (s : Str) : Option Str := if s = [] then none else some s

/-- Source line 65 applied to the whole grid. -/
def naGrid (g : Grid) : List (List (Option Str)) := g.map (fun r => r.map toNa)

/-- Source line 66: `df.dropna(how='all')` — keep the rows that have at
least one non-missing cell. -/
def dropAllNa (rows : List (List (Option Str))) : List (List (Option Str)) :=
  rows.filter (fun r => r.any (fun c => c.isSome))

/-- Python `str(x)` on a cell value: `pd.NA` prints as `<NA>`. -/
def pyStr : Option Str → Str
  | none => str "<NA>"
  | some s => s

/-- Source line 82 applied to one cell of the data frame:
`re.sub(r'\s+', ' ', str(x)).strip()`. -/
def normCell (c : Option Str) : Str := normWs (pyStr c)

/-- Source line 82 applied to one row. -/
def normRow (r : List (Option Str)) : List Str := r.map normCell

/-- Pandas `df.shape[1]`: the column count of the (rectangular) grid. -/
def gridCols (g : Grid) : Nat := (g.headD []).length

/-- Source line 61: the fixed header imposed on every valid table. -/
def fixedHeader : List Str :=
  [str "Nº TOMB.", str "ESPECIFICAÇÃO", str "CLASSIFICAÇÃO",
   str "OBSERVAÇÃO", str "RESPONSÁVEL", str "LOCALIZAÇÃO"]

/-- The identifier field of a record: column 0, `data["Nº TOMB."]`. -/
def idCell (r : List Str) : Str := r.headD []

/-- Source line 85 predicate: `data["Nº TOMB."].str.match(r'^\d+$', na=False)`
on one (already normalized) row. -/
def keepRow (r : List Str) : Bool := pyMatchDigits (idCell r)

/-- Source line 85: the Record Filter — retain the rows whose identifier
matches the digit pattern; dropped rows produce no report. -/
def recordFilter (rows : List (List Str)) : List (List Str) :=
  rows.filter keepRow

/-- Outcome of processing one table: a silent skip (line 70), a column-count
warning naming the 1-based table number and the column count (line 77), or a
relabelled, normalized and filtered fragment (lines 81-85). -/
inductive TableResult where
  | skipped
  | warned (tableNo cols : Nat)
  | fragment (header : List Str) (rows : List (List Str))
  deriving DecidableEq

/-- Source lines 64-85: processing of table number `idx` (0-based). -/
def processTable (idx : Nat) (g : Grid) : TableResult :=
  let df := dropAllNa (naGrid g)
  if df.length < 2 ∨ gridCols g < 6 then .skipped
  else
    let dat := df.tail
    if gridCols g ≠ 6 then .warned (idx + 1) (gridCols g)
    else .fragment fixedHeader (recordFilter (dat.map normRow))

/-- The records a table contributes to the cumulative record set. -/
def rowsOf : TableResult → List (List Str)
  | .fragment _ rows => rows
  | _ => []

/-- Source lines 87-88: `df_list`, appending each non-empty fragment. -/
def dfListAux (i : Nat) : List Grid → List (List (List Str))
  | [] => []
  | g :: gs =>
    let rest := dfListAux (i + 1) gs
    match processTable i g with
    | .fragment _ rows => if rows = [] then rest else rows :: rest
    | _ => rest

/-- Source line 94: `final_df = pd.concat(df_list, ignore_index=True)` —
the session's cumulative record set. -/
def finalRecords (gs : List Grid) : List (List Str) := (dfListAux 0 gs).flatten

/-- The contribution of a single grid (the fragment rows, or nothing). -/
def rowsOfGrid (g : Grid) : List (List Str) := rowsOf (processTable 0 g)

/-- The spec's identifier pattern `^[0-9]+$`: one or more ASCII digits.
(Stated from the spec's words, for comparison with the source's
`pyMatchDigits`.) -/
def asciiDigits (s : Str) : Bool :=
  (!s.isEmpty) && s.all (fun c => '0' ≤ c && c ≤ '9')

/-!  The aggregator (source lines 100-111). -/

/-- The distinct values of a column in first-occurrence order (the key
order of the pandas hash table behind `nunique`/`value_counts`). -/
def uniqFirst : List Str → List Str
  | [] => []
  | a :: l => a :: (uniqFirst l).filter (fun b => b ≠ a)

/-- Pandas `Series.nunique()`: the number of distinct values. -/
def nunique (l : List Str) : Nat := (uniqFirst l).length

/-- Stable descending insertion: the new pair goes after every pair with a
count at least as large (models `sort_values(ascending=False, kind="stable")`
inside `value_counts`). -/
def insDesc (x : Str × Nat) : List (Str × Nat) → List (Str × Nat)
  | [] => [x]
  | y :: ys => if y.2 < x.2 then x :: y :: ys else y :: insDesc x ys

/-- Stable sort by descending count of a list of (value, count) pairs. -/
def sortCounts (l : List (Str × Nat)) : List (Str × Nat) :=
  l.foldl (fun acc x => insDesc x acc) []

/-- Pandas `Series.value_counts()`: pair each distinct value (in first-occurrence
order) with its frequency, then sort stably by descending frequency. -/
def valueCounts (l : List Str) : List (Str × Nat) :=
  sortCounts ((uniqFirst l).map (fun v => (v, l.count v)))

/-- The ordering produced by `value_counts`: strictly larger count first,
equal counts ordered by smaller key, where the key will be the position of
the value's first occurrence in the column. -/
def lexRel (k : Str → Nat) (a b : Str × Nat) : Prop :=
  b.2 < a.2 ∨ (a.2 = b.2 ∧ k a.1 < k b.1)

/-- The position of the first occurrence of `v` in a column. -/
def firstIdx (v : Str) : List Str → Nat
  | [] => 0
  | a :: l => if a = v then 0 else firstIdx v l + 1

/-- Column 2, `final_df["CLASSIFICAÇÃO"]`. -/
def classCol (recs : List (List Str)) : List Str := recs.map (fun r => r.getD 2 [])

/-- Column 4, `final_df["RESPONSÁVEL"]`. -/
def respCol (recs : List (List Str)) : List Str := recs.map (fun r => r.getD 4 [])

/-- Source line 101: `len(final_df)`. -/
def totalRecords (recs : List (List Str)) : Nat := recs.length

/-- Source line 111: `final_df['RESPONSÁVEL'].value_counts().index[:3]`. -/
def top3Resp (recs : List (List Str)) : List Str :=
  ((valueCounts (respCol recs)).map Prod.fst).take 3

/-!  The CSV exporter (source line 138: `final_df.to_csv(index=False)`)
and a CSV re-parser modelled from the spec's round-trip property. -/

/-- A field must be quoted when it contains the delimiter, the quote
character or a line-break character (`csv.QUOTE_MINIMAL`). -/
def needsQuote (s : Str) : Bool :=
  s.any (fun c => c == ',' || c == '"' || c == '\n' || c == '\r')

/-- The body of a quoted field: every quote character is doubled. -/
def escBody : Str → Str
  | [] => []
  | c :: r => if c = '"' then '"' :: '"' :: escBody r else c :: escBody r

/-- Serialize one field (quote-minimal). -/
def serCell (s : Str) : Str :=
  if needsQuote s then '"' :: (escBody s ++ ['"']) else s

/-- Serialize one row: fields joined with commas. -/
def serRow : List Str → Str
  | [] => []
  | [f] => serCell f
  | f :: fs => serCell f ++ ',' :: serRow fs

/-- Join lines, each terminated by `'\n'` (pandas' line terminator). -/
def joinLines (ls : List Str) : Str :=
  ls.foldr (fun l acc => l ++ '\n' :: acc) []

/-- Source line 138: the CSV byte stream — fixed header line, then one
line per record, every line newline-terminated, no index column. -/
def serCsv (recs : List (List Str)) : Str :=
  joinLines (serRow fixedHeader :: recs.map serRow)

/-- Split a character stream at `'\n'`. -/
def splitNl : Str → List Str
  | [] => [[]]
  | c :: r =>
    if c = '\n' then [] :: splitNl r
    else
      match splitNl r with
      | t :: ts => (c :: t) :: ts
      | [] => [[c]]

/-- Modelled from the spec: "re-parsing the resulting byte stream" — one
line of CSV, parsed by a quote-aware automaton.  State 0 reads an unquoted
field, state 1 is inside a quoted field, state 2 has just read a quote
inside a quoted field (either the closing quote or half of a doubled
one); `cur` holds the current field's characters in reverse. -/
def parseAux : Nat → Str → Str → List Str
  | _, cur, [] => [cur.reverse]
  | st, cur, c :: rest =>
    if st = 1 then
      if c = '"' then parseAux 2 cur rest else parseAux 1 (c :: cur) rest
    else if st = 2 then
      if c = '"' then parseAux 1 ('"' :: cur) rest
      else if c = ',' then cur.reverse :: parseAux 0 [] rest
      else parseAux 0 (c :: cur) rest
    else
      if c = '"' then parseAux 1 cur rest
      else if c = ',' then cur.reverse :: parseAux 0 [] rest
      else parseAux 0 (c :: cur) rest

/-- Parse one CSV line into its fields. -/
def parseRow (s : Str) : List Str := parseAux 0 [] s

/-- Modelled from the spec: parse a CSV byte stream into rows (a trailing
empty line, produced by the final line terminator, is ignored). -/
def parseCsv (s : Str) : List (List Str) :=
  let ls := splitNl s
  (if ls.getLast? = some [] then ls.dropLast else ls).map parseRow

/-- Modelled from the spec: "re-parsing it with the same fixed header" —
the first parsed row must be the fixed six-field header; the remaining
rows are the re-read record set. -/
def reparse (s : Str) : Option (List (List Str)) :=
  match parseCsv s with
  | h :: rest => if h = fixedHeader then some rest else none
  | [] => none

/-!  The processing pass wrapper (source lines 38-156): try / except /
finally around the whole pipeline. -/

/-- What the user sees at the end of a pass. -/
inductive PassOutcome where
  | delivered (recs : List (List Str))
  | failed (msg : Str)
  deriving DecidableEq

/-- Source lines 154-156: `if os.path.exists(temp_pdf): os.remove(temp_pdf)`
acting on the existence flag of the temporary file. -/
def removeTemp (tmp : Bool) : Bool := if tmp then false else tmp

/-- Source lines 38-156.  The temporary file is written (`tmp := true`),
the body of the `try` block — extraction, per-table processing and export,
abstracted as an `Except` value — runs, any exception is caught at the top
level (line 152) and turned into the single error message, and the
`finally` block removes the temporary file.  Returns the outcome and the
final existence flag of the temporary file. -/
def runPass (body : Except Str (List (List Str))) : PassOutcome × Bool :=
  let tmp := true
  match body with
  | .ok recs => (.delivered recs, removeTemp tmp)
  | .error e => (.failed (str "❌ Erro inesperado: " ++ e), removeTemp tmp)

/-!  Concrete inputs used by the counterexamples and witnesses. -/

/-- The spec's scenario grid: header, one valid row, one invalid row. -/
def gScn : Grid :=
  [[str "Nº", str "Esp", str "Cls", str "Obs", str "Resp", str "Loc"],
   [str "12", str "Chair", str "Furniture", str "", str "Alice", str "RoomA"],
   [str "x", str "Bad", str "Row", str "", str "Bob", str "RoomB"]]

/-- A 2-row, 6-column raw grid whose only data row is all-empty. -/
def gBlank : Grid :=
  [[str "H1", str "H2", str "H3", str "H4", str "H5", str "H6"],
   [str "", str "", str "", str "", str "", str ""]]

/-- A 2-row, 5-column raw grid with non-empty cells. -/
def g5c : Grid :=
  [[str "a", str "b", str "c", str "d", str "e"],
   [str "1", str "2", str "3", str "4", str "5"]]

/-- A 2-row, 7-column raw grid with non-empty cells. -/
def g7c : Grid :=
  [[str "a", str "b", str "c", str "d", str "e", str "f", str "g"],
   [str "1", str "2", str "3", str "4", str "5", str "6", str "7"]]

/-- A valid 6-column grid whose data row contains two empty cells. -/
def gBug : Grid :=
  [[str "H1", str "H2", str "H3", str "H4", str "H5", str "H6"],
   [str "12", str "", str "Furniture", str "", str "Alice", str "RoomA"]]

/-- A 1-row, 6-column raw grid. -/
def g1w : Grid := [[str "a", str "b", str "c", str "d", str "e", str "f"]]

/-- A record whose identifier is made of fullwidth (non-ASCII) digits. -/
def recFw : List Str :=
  [str "１２", str "a", str "b", str "c", str "d", str "e"]

/-- A record set whose responsible parties are Alice, Alice, Bob, Carol. -/
def demoRecs : List (List Str) :=
  [[str "1", str "s", str "Furniture", str "n", str "Alice", str "R1"],
   [str "2", str "s", str "Furniture", str "n", str "Alice", str "R2"],
   [str "3", str "s", str "Chairs", str "n", str "Bob", str "R1"],
   [str "4", str "s", str "Furniture", str "n", str "Carol", str "R3"]]

/-!  Helper lemmas about the pipeline. -/

theorem dropAllNa_naGrid_length_le (g : Grid) :
    (dropAllNa (naGrid g)).length ≤ g.length := by
  calc (dropAllNa (naGrid g)).length ≤ (naGrid g).length :=
        List.length_filter_le _ _
    _ = g.length := by simp [naGrid]

theorem anySome_map_toNa (r : List Str) :
    ((r.map toNa).any (fun c => c.isSome)) = !(r.all (fun c => c.isEmpty)) := by
  induction r with
  | nil => rfl
  | cons c r ih =>
    have hc : (toNa c).isSome = !c.isEmpty := by
      cases c <;> simp [toNa]
    simp [ih, hc]

/-- The step `replace('', pd.NA)` followed by `dropna(how='all')` removes exactly
the rows all of whose cells are the empty string. -/
theorem dropAllNa_naGrid (g : Grid) :
    dropAllNa (naGrid g) =
      (g.filter (fun r => !r.all (fun c => c.isEmpty))).map (fun r => r.map toNa) := by
  unfold dropAllNa naGrid
  rw [List.filter_map]
  have hp : ((fun r : List (Option Str) => r.any (fun c => c.isSome)) ∘
      (fun r : List Str => r.map toNa)) =
      (fun r : List Str => !r.all (fun c => c.isEmpty)) := by
    funext r
    exact anySome_map_toNa r

  rw [hp]

/-- The fragment rows a table contributes do not depend on the table
index (the index only appears in the warning payload). -/
theorem rowsOf_processTable_idx (i j : Nat) (g : Grid) :
    rowsOf (processTable i g) = rowsOf (processTable j g) := by
  unfold processTable
  by_cases h1 : (dropAllNa (naGrid g)).length < 2 ∨ gridCols g < 6
  · simp [h1]
  · by_cases h2 : gridCols g = 6 <;> simp [h1, h2, rowsOf]

/-- Appending only the non-empty fragments and concatenating gives the
same record set as concatenating every table's contribution in order. -/
theorem dfListAux_flatten (i : Nat) (gs : List Grid) :
    (dfListAux i gs).flatten = (gs.map rowsOfGrid).flatten := by
  induction gs generalizing i with
  | nil => rfl
  | cons g gs ih =>
    have hg : rowsOfGrid g = rowsOf (processTable i g) :=
      rowsOf_processTable_idx 0 i g
    cases hp : processTable i g with
    | fragment hdr rows =>
      have hrows : rowsOfGrid g = rows := by rw [hg, hp]; rfl
      by_cases hr : rows = [] <;>
        simp [dfListAux, hp, hr, ih (i + 1), hrows]
    | skipped =>
      have hrows : rowsOfGrid g = [] := by rw [hg, hp]; rfl
      simp [dfListAux, hp, ih (i + 1), hrows]
    | warned a b =>
      have hrows : rowsOfGrid g = [] := by rw [hg, hp]; rfl
      simp [dfListAux, hp, ih (i + 1), hrows]

/-- An ASCII digit (code points 0x30-0x39) is a Python `\d` digit. -/
theorem ascii_pyDigit {c : Char} (h : (48 ≤ c.toNat && c.toNat ≤ 57) = true) :
    pyDigit c = true := by
  unfold pyDigit digitRanges
  simp only [List.any_cons]
  simp [h]

/-!  Claim theorems. -/

/-- C2: every raw grid with fewer than 2 rows or fewer than 6 columns is
discarded by the validation check (source line 69) with a silent skip —
no warning and no record-set fragment. -/
theorem c2_small_grid_skipped (idx : Nat) (g : Grid)
    (h : g.length < 2 ∨ gridCols g < 6) :
    processTable idx g = .skipped ∧ rowsOf (processTable idx g) = [] := by
  have hcond : (dropAllNa (naGrid g)).length < 2 ∨ gridCols g < 6 := by
    cases h with
    | inl h => exact Or.inl (lt_of_le_of_lt (dropAllNa_naGrid_length_le g) h)
    | inr h => exact Or.inr h
  have hskip : processTable idx g = .skipped := by
    unfold processTable
    simp [hcond]
  exact ⟨hskip, by rw [hskip]; rfl⟩

/-- C2 witness: a one-row grid is skipped. -/
theorem c2_small_grid_skipped_witness :
    (g1w.length < 2 ∨ gridCols g1w < 6) ∧
    processTable 0 g1w = .skipped ∧ rowsOf (processTable 0 g1w) = [] := by
  refine ⟨Or.inl (by decide), ?_⟩
  exact c2_small_grid_skipped 0 g1w (Or.inl (by decide))

/-- C10: the `replace('', pd.NA)` + `dropna(how='all')` step (source lines
65-66) removes exactly the all-empty rows before the row-count check, so a
grid whose data rows are all empty is silently discarded even when the raw
grid has 2 or more rows. -/
theorem c10_empty_rows_dropped :
    (∀ g : Grid, dropAllNa (naGrid g) =
        (g.filter (fun r => !r.all (fun c => c.isEmpty))).map (fun r => r.map toNa))
    ∧ (∀ (idx : Nat) (g : Grid),
        (∀ r ∈ g.tail, r.all (fun c => c.isEmpty) = true) →
        processTable idx g = .skipped) := by
  constructor
  · exact dropAllNa_naGrid
  · intro idx g hg
    have hlen : (dropAllNa (naGrid g)).length < 2 := by
      rw [dropAllNa_naGrid g, List.length_map]
      cases g with
      | nil => simp
      | cons h t =>
        have ht : t.filter (fun r => !r.all (fun c => c.isEmpty)) = [] := by
          rw [List.filter_eq_nil_iff]
          intro r hr
          simp [hg r hr]
        rw [List.filter_cons]
        by_cases hh : (!h.all fun c => c.isEmpty) = true <;> simp [hh, ht]
    unfold processTable
    simp [hlen]

/-- C10 witness: a 2-row grid whose data row is all-empty is skipped. -/
theorem c10_empty_rows_dropped_witness :
    (∀ r ∈ gBlank.tail, r.all (fun c => c.isEmpty) = true) ∧
    processTable 0 gBlank = .skipped := by
  refine ⟨by decide, c10_empty_rows_dropped.2 0 gBlank (by decide)⟩

/-- C5 (code bug): a cell that is the empty string in the raw grid is
turned into `pd.NA` (line 65) and then stringified by the cell normalizer
(line 82) into the literal string `<NA>`, not the empty string: in the
fragment produced for `gBug` the two empty cells surface as `<NA>`.  The
cell normalizer itself maps the empty string to the empty string. -/
theorem c5_empty_cell_divergence :
    processTable 0 gBug = .fragment fixedHeader
      [[str "12", str "<NA>", str "Furniture", str "<NA>", str "Alice", str "RoomA"]]
    ∧ str "<NA>" = ['<', 'N', 'A', '>']
    ∧ normWs (str "") = str "" := by
  exact ⟨by decide, by decide, by decide⟩

/-- C1 counterexample: a record whose identifier consists of fullwidth
digits U+FF11 U+FF12 — not ASCII digits, so `^[0-9]+$` fails on it — is
retained by the Record Filter. -/
theorem c1_record_filter_counterexample :
    recordFilter [recFw] = [recFw] ∧ asciiDigits (idCell recFw) = false := by
  exact ⟨by decide, by decide⟩

/-- C1 (amended): a normalized record survives the Record Filter iff its
identifier matches Python's `^\d+$` — i.e. (on newline-free strings) it is
non-empty and every character is a Unicode decimal digit; the empty string,
strings with letters and strings with embedded spaces are still rejected,
and every ASCII-digit string is still retained.  Rejected rows are simply
absent from the output (no report). -/
theorem c1_record_filter_amended :
    (∀ (rows : List (List Str)) (r : List Str),
        r ∈ recordFilter rows ↔ r ∈ rows ∧ keepRow r = true)
    ∧ (∀ s : Str, '\n' ∉ s →
        (pyMatchDigits s = true ↔ s ≠ [] ∧ ∀ c ∈ s, pyDigit c = true))
    ∧ pyMatchDigits (str "") = false
    ∧ pyMatchDigits (str "a1") = false
    ∧ pyMatchDigits (str "1 2") = false
    ∧ (∀ s : Str, asciiDigits s = true → pyMatchDigits s = true) := by
  refine ⟨?_, ?_, by decide, by decide, by decide, ?_⟩
  · intro rows r
    exact List.mem_filter
  · intro s hnl
    have ht : (if s.getLast? = some '\n' then s.dropLast else s) = s := by
      rw [if_neg]
      intro h
      exact hnl (List.mem_of_mem_getLast? h)
    unfold pyMatchDigits
    rw [ht]
    simp [List.all_eq_true, List.isEmpty_iff]
  · intro s hs
    unfold asciiDigits at hs
    rw [Bool.and_eq_true, List.all_eq_true] at hs
    obtain ⟨hne, hall⟩ := hs
    have hnl : '\n' ∉ s := by
      intro h
      have := hall _ h
      simp at this
    have ht : (if s.getLast? = some '\n' then s.dropLast else s) = s := by
      rw [if_neg]
      intro h
      exact hnl (List.mem_of_mem_getLast? h)
    unfold pyMatchDigits
    rw [ht, Bool.and_eq_true, List.all_eq_true]
    refine ⟨hne, fun c hc => ascii_pyDigit (hall c hc)⟩

/-- C1 witness: `"12"` is newline-free, matches the Python pattern, and
every ASCII-digit string such as `"34"` is retained. -/
theorem c1_record_filter_witness :
    ('\n' ∉ str "12" ∧
      (pyMatchDigits (str "12") = true ↔
        str "12" ≠ [] ∧ ∀ c ∈ str "12", pyDigit c = true))
    ∧ (asciiDigits (str "34") = true ∧ pyMatchDigits (str "34") = true) := by
  refine ⟨⟨by decide, c1_record_filter_amended.2.1 (str "12") (by decide)⟩,
    by decide, c1_record_filter_amended.2.2.2.2.2 (str "34") (by decide)⟩

/-- C3 counterexample: a 5-column table is discarded by the earlier silent
row/column check (line 69), so it produces a `skipped` result — no warning
is emitted for it, contrary to the claim. -/
theorem c3_column_warning_counterexample :
    gridCols g5c = 5 ∧ processTable 0 g5c = .skipped := by
  exact ⟨by decide, by decide⟩

/-- C3 (amended): the user-visible warning naming the 1-based table number
and the column count fires exactly for tables that pass the first check
with more than 6 columns; such tables contribute zero records.  Tables with
fewer than 6 columns are discarded by the earlier check as a silent skip,
without the warning. -/
theorem c3_column_warning_amended :
    (∀ (idx : Nat) (g : Grid), 2 ≤ (dropAllNa (naGrid g)).length →
        6 < gridCols g →
        processTable idx g = .warned (idx + 1) (gridCols g))
    ∧ (∀ i n, rowsOf (.warned i n) = [])
    ∧ (∀ (idx : Nat) (g : Grid), gridCols g < 6 →
        processTable idx g = .skipped) := by
  refine ⟨?_, fun i n => rfl, ?_⟩
  · intro idx g h2 h6
    have hcond : ¬((dropAllNa (naGrid g)).length < 2 ∨ gridCols g < 6) := by
      omega
    have hne : gridCols g ≠ 6 := by omega
    unfold processTable
    simp [hcond, hne]
  · intro idx g h
    unfold processTable
    simp [h]

/-- C3 witness: a 7-column table with 2 surviving rows gets the warning
naming table number 3 and column count 7. -/
theorem c3_column_warning_witness :
    2 ≤ (dropAllNa (naGrid g7c)).length ∧ 6 < gridCols g7c ∧
    processTable 2 g7c = .warned 3 (gridCols g7c) := by
  exact ⟨by decide, by decide,
    c3_column_warning_amended.1 2 g7c (by decide) (by decide)⟩

/-- C4 counterexample: a raw grid with 2 rows and 6 columns whose only
data row is all-empty is skipped — no fragment is produced, because the
all-empty row is removed before the row-count check. -/
theorem c4_valid_grid_fragment_counterexample :
    gBlank.length = 2 ∧ gridCols gBlank = 6 ∧
    processTable 0 gBlank = .skipped := by
  exact ⟨by decide, by decide, by decide⟩

/-- C4 (amended): every raw grid with exactly 6 columns and at least 2
rows remaining after removal of all-empty rows produces a fragment whose
header is exactly the six fixed field names; its rows form an
order-preserving selection (a sublist) of the normalized data rows, and on
a rectangular grid every produced record has the six fields.  The session
record set is the concatenation of the tables' contributions in table
order. -/
theorem c4_valid_grid_fragment_amended :
    (∀ (idx : Nat) (g : Grid), 2 ≤ (dropAllNa (naGrid g)).length →
        gridCols g = 6 →
        ∃ R, processTable idx g = .fragment fixedHeader R
          ∧ R.Sublist ((dropAllNa (naGrid g)).tail.map normRow)
          ∧ ((∀ r ∈ g, r.length = 6) → ∀ r ∈ R, r.length = 6))
    ∧ (∀ gs : List Grid, finalRecords gs = (gs.map rowsOfGrid).flatten) := by
  constructor
  · intro idx g h2 h6
    have hcond : ¬((dropAllNa (naGrid g)).length < 2 ∨ gridCols g < 6) := by
      omega
    refine ⟨recordFilter ((dropAllNa (naGrid g)).tail.map normRow), ?_, ?_, ?_⟩
    · unfold processTable
      simp [hcond, h6, h2]
    · exact List.filter_sublist _
    · intro hrect r hr
      have hr' : r ∈ (dropAllNa (naGrid g)).tail.map normRow :=
        List.Sublist.mem hr (List.filter_sublist _)
      obtain ⟨r0, hr0, rfl⟩ := List.mem_map.mp hr'
      have hr0' : r0 ∈ dropAllNa (naGrid g) :=
        List.Sublist.mem hr0 (List.tail_sublist _)
      have hr0'' : r0 ∈ naGrid g :=
        List.Sublist.mem hr0' (List.filter_sublist _)
      obtain ⟨r1, hr1, rfl⟩ := List.mem_map.mp hr0''
      have h1 : r1.length = 6 := hrect r1 hr1
      simp [normRow, h1]
  · intro gs
    exact dfListAux_flatten 0 gs

/-- C4 witness: the spec's scenario grid produces a fragment with the
fixed header whose rows are a sublist of the normalized data rows. -/
theorem c4_valid_grid_fragment_witness :
    2 ≤ (dropAllNa (naGrid gScn)).length ∧ gridCols gScn = 6 ∧
    ∃ R, processTable 1 gScn = .fragment fixedHeader R
      ∧ R.Sublist ((dropAllNa (naGrid gScn)).tail.map normRow)
      ∧ ((∀ r ∈ gScn, r.length = 6) → ∀ r ∈ R, r.length = 6) := by
  exact ⟨by decide, by decide,
    c4_valid_grid_fragment_amended.1 1 gScn (by decide) (by decide)⟩

/-- C9: for every outcome of the processing body, the temporary file is
removed by the `finally` block, and an exception is surfaced as the single
`st.error` message built from the exception text. -/
theorem c9_cleanup_and_error :
    (∀ body : Except Str (List (List Str)), (runPass body).2 = false)
    ∧ (∀ e : Str,
        runPass (.error e) =
          (.failed (str "❌ Erro inesperado: " ++ e), false))
    ∧ (∀ recs : List (List Str),
        runPass (.ok recs) = (.delivered recs, false)) := by
  refine ⟨?_, fun e => rfl, fun recs => rfl⟩
  intro body
  cases body <;> rfl

/-!  Lemmas about the whitespace normalizer, leading to idempotence (C8). -/

theorem mem_collapseAux_space :
    ∀ (s : Str) (b : Bool) (c : Char), c ∈ collapseAux b s →
      pyIsSpace c = true → c = ' ' := by
  intro s
  induction s with
  | nil => intro b c hc _; simp [collapseAux] at hc
  | cons d r ih =>
    intro b c hc hs
    by_cases hd : pyIsSpace d = true
    · cases b with
      | true =>
        rw [show collapseAux true (d :: r) = collapseAux true r from by
          simp [collapseAux, hd]] at hc
        exact ih true c hc hs
      | false =>
        rw [show collapseAux false (d :: r) = ' ' :: collapseAux true r from by
          simp [collapseAux, hd]] at hc
        rcases List.mem_cons.mp hc with h | h
        · exact h
        · exact ih true c h hs
    · rw [show collapseAux b (d :: r) = d :: collapseAux false r from by
        simp [collapseAux, hd]] at hc
      rcases List.mem_cons.mp hc with h | h
      · subst h; rw [hs] at hd; exact absurd rfl hd
      · exact ih false c h hs

theorem collapseAux_true_head :
    ∀ (s : Str) (c : Char), (collapseAux true s).head? = some c →
      pyIsSpace c = false := by
  intro s
  induction s with
  | nil => intro c h; simp [collapseAux] at h
  | cons d r ih =>
    intro c h
    by_cases hd : pyIsSpace d = true
    · rw [show collapseAux true (d :: r) = collapseAux true r from by
        simp [collapseAux, hd]] at h
      exact ih c h
    · rw [show collapseAux true (d :: r) = d :: collapseAux false r from by
        simp [collapseAux, hd]] at h
      simp only [List.head?_cons, Option.some.injEq] at h
      subst h
      simpa using hd

theorem chain'_collapseAux :
    ∀ (s : Str) (b : Bool),
      (collapseAux b s).Chain' (fun a c => a = ' ' → c ≠ ' ') := by
  intro s
  induction s with
  | nil => intro b; simp [collapseAux]
  | cons d r ih =>
    intro b
    by_cases hd : pyIsSpace d = true
    · cases b with
      | true =>
        rw [show collapseAux true (d :: r) = collapseAux true r from by
          simp [collapseAux, hd]]
        exact ih true
      | false =>
        rw [show collapseAux false (d :: r) = ' ' :: collapseAux true r from by
          simp [collapseAux, hd]]
        rw [List.chain'_cons']
        refine ⟨?_, ih true⟩
        intro y hy _
        intro hy'
        have := collapseAux_true_head r y (by simpa using hy)
        rw [hy'] at this
        simp [pyIsSpace] at this
    · rw [show collapseAux b (d :: r) = d :: collapseAux false r from by
        simp [collapseAux, hd]]
      rw [List.chain'_cons']
      refine ⟨?_, ih false⟩
      intro y _ hd'
      subst hd'
      simp [pyIsSpace] at hd

theorem dropWhile_head?_false {p : Char → Bool} :
    ∀ (l : Str) (c : Char), (l.dropWhile p).head? = some c → p c = false := by
  intro l
  induction l with
  | nil => intro c h; simp at h
  | cons d r ih =>
    intro c h
    rw [List.dropWhile_cons] at h
    by_cases hd : p d = true
    · rw [if_pos hd] at h
      exact ih c h
    · rw [if_neg hd] at h
      simp only [List.head?_cons, Option.some.injEq] at h
      subst h
      simpa using hd

theorem chain'_dropWhile {R : Char → Char → Prop} {p : Char → Bool} :
    ∀ {l : Str}, l.Chain' R → (l.dropWhile p).Chain' R := by
  intro l
  induction l with
  | nil => intro h; simp
  | cons d r ih =>
    intro h
    rw [List.dropWhile_cons]
    by_cases hd : p d = true
    · rw [if_pos hd]
      exact ih h.tail
    · rw [if_neg hd]
      exact h

theorem stripR_head_cases :
    ∀ s : Str, stripR s = [] ∨ (stripR s).head? = s.head? := by
  intro s
  cases s with
  | nil => exact Or.inl rfl
  | cons c r =>
    by_cases hcond : ((stripR r).isEmpty && pyIsSpace c) = true
    · exact Or.inl (by simp [stripR, hcond])
    · right
      rw [show stripR (c :: r) = c :: stripR r from by simp [stripR, hcond]]
      rfl

theorem mem_stripR : ∀ {s : Str} {c : Char}, c ∈ stripR s → c ∈ s := by
  intro s
  induction s with
  | nil => intro c h; simp [stripR] at h
  | cons d r ih =>
    intro c h
    by_cases hcond : ((stripR r).isEmpty && pyIsSpace d) = true
    · rw [show stripR (d :: r) = [] from by simp [stripR, hcond]] at h
      simp at h
    · rw [show stripR (d :: r) = d :: stripR r from by simp [stripR, hcond]] at h
      rcases List.mem_cons.mp h with h | h
      · exact h ▸ List.mem_cons_self d r
      · exact List.mem_cons_of_mem d (ih h)

theorem chain'_stripR {R : Char → Char → Prop} :
    ∀ {s : Str}, s.Chain' R → (stripR s).Chain' R := by
  intro s
  induction s with
  | nil => intro h; simp [stripR]
  | cons d r ih =>
    intro h
    by_cases hcond : ((stripR r).isEmpty && pyIsSpace d) = true
    · rw [show stripR (d :: r) = [] from by simp [stripR, hcond]]
      simp
    · rw [show stripR (d :: r) = d :: stripR r from by simp [stripR, hcond]]
      rw [List.chain'_cons']
      refine ⟨?_, ih h.tail⟩
      intro y hy
      rcases stripR_head_cases r with h0 | h0
      · rw [h0] at hy; simp at hy
      · rw [h0] at hy
        exact (List.chain'_cons'.mp h).1 y hy

theorem stripR_getLast :
    ∀ {s : Str} {c : Char}, (stripR s).getLast? = some c →
      pyIsSpace c = false := by
  intro s
  induction s with
  | nil => intro c h; simp [stripR] at h
  | cons d r ih =>
    intro c h
    by_cases hcond : ((stripR r).isEmpty && pyIsSpace d) = true
    · rw [show stripR (d :: r) = [] from by simp [stripR, hcond]] at h
      simp at h
    · rw [show stripR (d :: r) = d :: stripR r from by simp [stripR, hcond]] at h
      cases hsr : stripR r with
      | nil =>
        rw [hsr] at h
        simp only [List.getLast?_singleton, Option.some.injEq] at h
        subst h
        rw [hsr] at hcond
        simpa using hcond
      | cons x xs =>
        rw [hsr, List.getLast?_cons_cons] at h
        exact ih (hsr ▸ h)

theorem stripL_eq_self {s : Str}
    (h : ∀ c, s.head? = some c → pyIsSpace c = false) : stripL s = s := by
  cases s with
  | nil => rfl
  | cons d r =>
    unfold stripL
    rw [List.dropWhile_cons, if_neg]
    rw [h d rfl]
    simp

theorem stripR_eq_self :
    ∀ {s : Str}, (∀ c, s.getLast? = some c → pyIsSpace c = false) →
      stripR s = s := by
  intro s
  induction s with
  | nil => intro _; rfl
  | cons d r ih =>
    intro h
    cases r with
    | nil =>
      have hd : pyIsSpace d = false := h d rfl
      simp [stripR, hd]
    | cons x xs =>
      have hr : stripR (x :: xs) = x :: xs := by
        apply ih
        intro c hc
        exact h c (by rw [List.getLast?_cons_cons]; exact hc)
      rw [show stripR (d :: x :: xs) =
          (if (stripR (x :: xs)).isEmpty && pyIsSpace d then []
           else d :: stripR (x :: xs)) from rfl]
      rw [hr]
      simp

theorem collapseAux_eq_self :
    ∀ (n : Nat) (s : Str), s.length ≤ n →
      (∀ c ∈ s, pyIsSpace c = true → c = ' ') →
      s.Chain' (fun a c => a = ' ' → c ≠ ' ') →
      (∀ c, s.head? = some c → pyIsSpace c = false) →
      collapseAux false s = s ∧ collapseAux true s = s := by
  intro n
  induction n with
  | zero =>
    intro s hlen _ _ _
    have : s = [] := List.length_eq_zero.mp (Nat.le_zero.mp hlen)
    subst this
    exact ⟨rfl, rfl⟩
  | succ n ih =>
    intro s hlen hsp hch hhd
    cases s with
    | nil => exact ⟨rfl, rfl⟩
    | cons c r =>
      have hc : pyIsSpace c = false := hhd c rfl
      have step : ∀ b, collapseAux b (c :: r) = c :: collapseAux false r := by
        intro b
        cases b <;> simp [collapseAux, hc]
      have hrr : collapseAux false r = r := by
        cases r with
        | nil => rfl
        | cons d r2 =>
          by_cases hd : pyIsSpace d = true
          · have hd' : d = ' ' := hsp d (by simp) hd
            subst hd'
            have h2 : collapseAux false (' ' :: r2) = ' ' :: collapseAux true r2 := by
              simp [collapseAux]
              intro h
              simp [pyIsSpace] at h
            have hch1 : (' ' :: r2).Chain' (fun a c => a = ' ' → c ≠ ' ') :=
              hch.tail
            have hhd2 : ∀ y, r2.head? = some y → pyIsSpace y = false := by
              intro y hy
              have hy' : y ≠ ' ' := (List.chain'_cons'.mp hch1).1 y (by simp [hy]) rfl
              have hmem : y ∈ r2 := List.mem_of_mem_head? (by simp [hy])
              by_cases hys : pyIsSpace y = true
              · exact absurd (hsp y (by simp [hmem]) hys) hy'
              · simpa using hys
            have hr2 := ih r2 (by simp at hlen; omega)
              (fun y hy h => hsp y (by simp [hy]) h)
              hch1.tail hhd2
            rw [h2, hr2.2]
          · have hr := ih (d :: r2) (by simp at hlen ⊢; omega)
              (fun y hy h => hsp y (by simp at hy ⊢; tauto) h)
              hch.tail
              (fun y hy => by
                simp only [List.head?_cons, Option.some.injEq] at hy
                subst hy
                simpa using hd)
            exact hr.1
      exact ⟨by rw [step, hrr], by rw [step, hrr]⟩

theorem normWs_spaces {s : Str} {c : Char} (hc : c ∈ normWs s)
    (hs : pyIsSpace c = true) : c = ' ' := by
  have h1 : c ∈ stripL (collapse s) := mem_stripR hc
  have h2 : c ∈ collapse s :=
    List.Sublist.mem h1 (List.dropWhile_sublist _)
  exact mem_collapseAux_space s false c h2 hs

theorem normWs_chain' (s : Str) :
    (normWs s).Chain' (fun a c => a = ' ' → c ≠ ' ') :=
  chain'_stripR (chain'_dropWhile (chain'_collapseAux s false))

theorem normWs_head {s : Str} {c : Char} (h : (normWs s).head? = some c) :
    pyIsSpace c = false := by
  rcases stripR_head_cases (stripL (collapse s)) with h0 | h0
  · rw [show normWs s = stripR (stripL (collapse s)) from rfl, h0] at h
    simp at h
  · rw [show normWs s = stripR (stripL (collapse s)) from rfl, h0] at h
    exact dropWhile_head?_false (collapse s) c h

theorem normWs_getLast {s : Str} {c : Char}
    (h : (normWs s).getLast? = some c) : pyIsSpace c = false :=
  stripR_getLast h

/-- C8: the cell normalizer (source line 82) is idempotent: normalizing an
already-normalized cell value yields the same value. -/
theorem c8_normalize_idempotent : ∀ s : Str, normWs (normWs s) = normWs s := by
  intro s
  have hsp : ∀ c ∈ normWs s, pyIsSpace c = true → c = ' ' :=
    fun c hc h => normWs_spaces hc h
  have hch := normWs_chain' s
  have hhd : ∀ c, (normWs s).head? = some c → pyIsSpace c = false :=
    fun c h => normWs_head h
  have hcol : collapse (normWs s) = normWs s :=
    (collapseAux_eq_self (normWs s).length (normWs s) le_rfl hsp hch hhd).1
  have hsl : stripL (normWs s) = normWs s := stripL_eq_self hhd
  have hsr : stripR (normWs s) = normWs s :=
    stripR_eq_self (fun c h => normWs_getLast h)
  show stripR (stripL (collapse (normWs s))) = normWs s
  rw [hcol, hsl, hsr]

/-!  Lemmas about `value_counts` (C6). -/

theorem mem_insDesc {x y : Str × Nat} :
    ∀ {acc : List (Str × Nat)}, y ∈ insDesc x acc ↔ y = x ∨ y ∈ acc := by
  intro acc
  induction acc with
  | nil => simp [insDesc]
  | cons z zs ih =>
    by_cases h : z.2 < x.2
    · rw [show insDesc x (z :: zs) = x :: z :: zs from by simp [insDesc, h]]
      simp [or_assoc]
    · rw [show insDesc x (z :: zs) = z :: insDesc x zs from by simp [insDesc, h]]
      simp only [List.mem_cons, ih]
      tauto

theorem pairwise_insDesc {k : Str → Nat} {x : Str × Nat} :
    ∀ {acc : List (Str × Nat)}, acc.Pairwise (lexRel k) →
      (∀ y ∈ acc, y.2 = x.2 → k y.1 < k x.1) →
      (insDesc x acc).Pairwise (lexRel k) := by
  intro acc
  induction acc with
  | nil =>
    intro _ _
    simp [insDesc]
  | cons z zs ih =>
    intro hp hk
    rw [List.pairwise_cons] at hp
    obtain ⟨hz, hzs⟩ := hp
    by_cases h : z.2 < x.2
    · rw [show insDesc x (z :: zs) = x :: z :: zs from by simp [insDesc, h]]
      rw [List.pairwise_cons]
      refine ⟨?_, List.pairwise_cons.mpr ⟨hz, hzs⟩⟩
      intro a ha
      rcases List.mem_cons.mp ha with rfl | ha
      · exact Or.inl h
      · rcases hz a ha with h1 | h1
        · exact Or.inl (lt_trans h1 h)
        · exact Or.inl (by omega)
    · rw [show insDesc x (z :: zs) = z :: insDesc x zs from by simp [insDesc, h]]
      rw [List.pairwise_cons]
      constructor
      · intro a ha
        rcases mem_insDesc.mp ha with rfl | ha
        · have hz2 : a.2 ≤ z.2 := Nat.le_of_not_lt h
          rcases Nat.lt_or_eq_of_le hz2 with h2 | h2
          · exact Or.inl h2
          · exact Or.inr ⟨h2.symm, hk z (by simp) (by omega)⟩
        · exact hz a ha
      · exact ih hzs (fun y hy => hk y (by simp [hy]))

theorem pairwise_foldl_insDesc {k : Str → Nat} :
    ∀ (ps acc : List (Str × Nat)), acc.Pairwise (lexRel k) →
      ps.Pairwise (fun a b => k a.1 < k b.1) →
      (∀ y ∈ acc, ∀ x ∈ ps, y.2 = x.2 → k y.1 < k x.1) →
      (ps.foldl (fun acc x => insDesc x acc) acc).Pairwise (lexRel k) := by
  intro ps
  induction ps with
  | nil =>
    intro acc h _ _
    simpa using h
  | cons x ps ih =>
    intro acc hacc hps hcross
    rw [List.foldl_cons]
    rw [List.pairwise_cons] at hps
    obtain ⟨hx, hps⟩ := hps
    apply ih
    · exact pairwise_insDesc hacc (fun y hy => hcross y hy x (by simp))
    · exact hps
    · intro y hy x' hx' hyx
      rcases mem_insDesc.mp hy with rfl | hy
      · exact hx x' hx'
      · exact hcross y hy x' (by simp [hx']) hyx

theorem mem_uniqFirst : ∀ {l : List Str} {a : Str}, a ∈ uniqFirst l → a ∈ l := by
  intro l
  induction l with
  | nil => intro a ha; simp [uniqFirst] at ha
  | cons b t ih =>
    intro a ha
    rw [show uniqFirst (b :: t) = b :: (uniqFirst t).filter (fun x => x ≠ b)
      from rfl] at ha
    rcases List.mem_cons.mp ha with rfl | ha
    · simp
    · exact List.mem_cons_of_mem _ (ih (List.mem_filter.mp ha).1)

/-- The distinct values, as produced by `uniqFirst`, are in strictly
increasing order of first occurrence. -/
theorem pairwise_firstIdx_uniqFirst :
    ∀ l : List Str,
      (uniqFirst l).Pairwise (fun a b => firstIdx a l < firstIdx b l) := by
  intro l
  induction l with
  | nil => simp [uniqFirst]
  | cons c t ih =>
    rw [show uniqFirst (c :: t) = c :: (uniqFirst t).filter (fun x => x ≠ c)
      from rfl]
    rw [List.pairwise_cons]
    constructor
    · intro a ha
      have hne : a ≠ c := by
        have := (List.mem_filter.mp ha).2
        simpa using this
      rw [show firstIdx c (c :: t) = 0 from by simp [firstIdx]]
      rw [show firstIdx a (c :: t) = firstIdx a t + 1 from by
        simp [firstIdx, Ne.symm hne]]
      exact Nat.succ_pos _
    · refine List.Pairwise.imp_of_mem ?_ (ih.filter _)
      intro a b ha hb hab
      have hna : a ≠ c := by
        have := (List.mem_filter.mp ha).2
        simpa using this
      have hnb : b ≠ c := by
        have := (List.mem_filter.mp hb).2
        simpa using this
      rw [show firstIdx a (c :: t) = firstIdx a t + 1 from by
        simp [firstIdx, Ne.symm hna]]
      rw [show firstIdx b (c :: t) = firstIdx b t + 1 from by
        simp [firstIdx, Ne.symm hnb]]
      exact Nat.succ_lt_succ hab

/-- Pandas `value_counts` lists the distinct values by strictly decreasing
frequency, breaking ties by the position of first occurrence. -/
theorem pairwise_valueCounts (l : List Str) :
    (valueCounts l).Pairwise (lexRel (fun v => firstIdx v l)) := by
  unfold valueCounts sortCounts
  apply pairwise_foldl_insDesc
  · exact List.Pairwise.nil
  · rw [List.pairwise_map]
    exact (pairwise_firstIdx_uniqFirst l).imp (fun h => h)
  · intro y hy
    simp at hy

/-- C6: `value_counts` orders by descending frequency with ties broken by
first-encountered order, and on the record set with responsible parties
Alice, Alice, Bob, Carol the aggregator reports 4 records, 2 distinct
classifications, 3 distinct responsible parties and top-3
[Alice, Bob, Carol]. -/
theorem c6_aggregator_summary :
    (∀ l : List Str, (valueCounts l).Pairwise (lexRel (fun v => firstIdx v l)))
    ∧ totalRecords demoRecs = 4
    ∧ nunique (classCol demoRecs) = 2
    ∧ nunique (respCol demoRecs) = 3
    ∧ top3Resp demoRecs = [str "Alice", str "Bob", str "Carol"] := by
  exact ⟨pairwise_valueCounts, by decide, by decide, by decide, by decide⟩

/-!  Lemmas about the CSV exporter and re-parser (C7). -/

theorem mem_escBody : ∀ {s : Str} {c : Char}, c ∈ escBody s → c ∈ s ∨ c = '"' := by
  intro s
  induction s with
  | nil => intro c hc; simp [escBody] at hc
  | cons d r ih =>
    intro c hc
    by_cases hd : d = '"'
    · subst hd
      rw [show escBody ('"' :: r) = '"' :: '"' :: escBody r from by
        simp [escBody]] at hc
      rcases List.mem_cons.mp hc with rfl | hc
      · exact Or.inr rfl
      · rcases List.mem_cons.mp hc with rfl | hc
        · exact Or.inr rfl
        · rcases ih hc with h | h
          · exact Or.inl (List.mem_cons_of_mem _ h)
          · exact Or.inr h
    · rw [show escBody (d :: r) = d :: escBody r from by simp [escBody, hd]] at hc
      rcases List.mem_cons.mp hc with rfl | hc
      · exact Or.inl (List.mem_cons_self _ _)
      · rcases ih hc with h | h
        · exact Or.inl (List.mem_cons_of_mem _ h)
        · exact Or.inr h

theorem no_nl_serCell {f : Str} (h : '\n' ∉ f) : '\n' ∉ serCell f := by
  unfold serCell
  by_cases hq : needsQuote f = true
  · rw [if_pos hq]
    intro hc
    rcases List.mem_cons.mp hc with hc' | hc'
    · exact absurd hc'.symm (by decide)
    · rcases List.mem_append.mp hc' with hc'' | hc''
      · rcases mem_escBody hc'' with h1 | h1
        · exact h h1
        · exact absurd h1 (by decide)
      · simp at hc''
  · rw [if_neg hq]
    exact h

theorem no_nl_serRow : ∀ {fs : List Str}, (∀ f ∈ fs, '\n' ∉ f) →
    '\n' ∉ serRow fs := by
  intro fs
  induction fs with
  | nil => intro _ h; simp [serRow] at h
  | cons f fs ih =>
    intro hf
    cases fs with
    | nil =>
      exact no_nl_serCell (hf f (by simp))
    | cons f2 fs2 =>
      rw [show serRow (f :: f2 :: fs2) = serCell f ++ ',' :: serRow (f2 :: fs2)
        from rfl]
      intro hc
      rcases List.mem_append.mp hc with h1 | h1
      · exact no_nl_serCell (hf f (by simp)) h1
      · rcases List.mem_cons.mp h1 with h2 | h2
        · exact absurd h2.symm (by decide)
        · exact ih (fun x hx => hf x (List.mem_cons_of_mem _ hx)) h2

theorem splitNl_append_nl :
    ∀ {l rest : Str}, '\n' ∉ l →
      splitNl (l ++ '\n' :: rest) = l :: splitNl rest := by
  intro l
  induction l with
  | nil => intro rest _; simp [splitNl]
  | cons c l ih =>
    intro rest h
    have hc : c ≠ '\n' := fun hc => h (hc ▸ List.mem_cons_self c l)
    rw [List.cons_append]
    rw [show splitNl (c :: (l ++ '\n' :: rest)) =
        (match splitNl (l ++ '\n' :: rest) with
         | t :: ts => (c :: t) :: ts
         | [] => [[c]]) from by simp [splitNl, hc]]
    rw [ih (fun hx => h (List.mem_cons_of_mem _ hx))]

theorem splitNl_joinLines :
    ∀ {ls : List Str}, (∀ l ∈ ls, '\n' ∉ l) →
      splitNl (joinLines ls) = ls ++ [[]] := by
  intro ls
  induction ls with
  | nil => intro _; rfl
  | cons l ls ih =>
    intro h
    rw [show joinLines (l :: ls) = l ++ '\n' :: joinLines ls from rfl]
    rw [splitNl_append_nl (h l (by simp))]
    rw [ih (fun x hx => h x (List.mem_cons_of_mem _ hx))]
    rfl

theorem no_special_of_not_needsQuote {f : Str} (h : needsQuote f = false) :
    ∀ c ∈ f, c ≠ ',' ∧ c ≠ '"' := by
  intro c hc
  unfold needsQuote at h
  rw [List.any_eq_false] at h
  have := h c hc
  constructor
  · intro hc'; subst hc'; simp at this
  · intro hc'; subst hc'; simp at this

theorem parseAux_unquoted :
    ∀ (f cur rest : Str), (∀ c ∈ f, c ≠ ',' ∧ c ≠ '"') →
      parseAux 0 cur (f ++ rest) = parseAux 0 (f.reverse ++ cur) rest := by
  intro f
  induction f with
  | nil => intro cur rest _; simp
  | cons c f ih =>
    intro cur rest h
    have hc := h c (by simp)
    rw [List.cons_append]
    rw [show parseAux 0 cur (c :: (f ++ rest)) = parseAux 0 (c :: cur) (f ++ rest)
      from by simp [parseAux, hc.1, hc.2]]
    rw [ih (c :: cur) rest (fun x hx => h x (List.mem_cons_of_mem _ hx))]
    simp

theorem parseAux_quoted :
    ∀ (f cur rest : Str),
      parseAux 1 cur (escBody f ++ '"' :: rest) =
        parseAux 2 (f.reverse ++ cur) rest := by
  intro f
  induction f with
  | nil =>
    intro cur rest
    simp [escBody, parseAux]
  | cons c f ih =>
    intro cur rest
    by_cases hc : c = '"'
    · subst hc
      rw [show escBody ('"' :: f) = '"' :: '"' :: escBody f from by simp [escBody]]
      rw [List.cons_append, List.cons_append]
      rw [show parseAux 1 cur ('"' :: '"' :: (escBody f ++ '"' :: rest)) =
          parseAux 2 cur ('"' :: (escBody f ++ '"' :: rest)) from by
        simp [parseAux]]
      rw [show parseAux 2 cur ('"' :: (escBody f ++ '"' :: rest)) =
          parseAux 1 ('"' :: cur) (escBody f ++ '"' :: rest) from by
        simp [parseAux]]
      rw [ih ('"' :: cur) rest]
      simp
    · rw [show escBody (c :: f) = c :: escBody f from by simp [escBody, hc]]
      rw [List.cons_append]
      rw [show parseAux 1 cur (c :: (escBody f ++ '"' :: rest)) =
          parseAux 1 (c :: cur) (escBody f ++ '"' :: rest) from by
        simp [parseAux, hc]]
      rw [ih (c :: cur) rest]
      simp

theorem parseAux_serRow : ∀ fs : List Str, fs ≠ [] →
    parseAux 0 [] (serRow fs) = fs := by
  intro fs
  induction fs with
  | nil => intro h; exact absurd rfl h
  | cons f fs ih =>
    intro _
    cases fs with
    | nil =>
      rw [show serRow [f] = serCell f from rfl]
      unfold serCell
      by_cases hq : needsQuote f = true
      · rw [if_pos hq]
        rw [show parseAux 0 [] ('"' :: (escBody f ++ ['"'])) =
            parseAux 1 [] (escBody f ++ '"' :: []) from by simp [parseAux]]
        rw [parseAux_quoted f [] []]
        simp [parseAux]
      · rw [if_neg hq]
        have := parseAux_unquoted f [] [] (no_special_of_not_needsQuote
          (by simpa using hq))
        rw [show f ++ ([] : Str) = f from by simp] at this
        rw [this]
        simp [parseAux]
    | cons f2 fs2 =>
      rw [show serRow (f :: f2 :: fs2) = serCell f ++ ',' :: serRow (f2 :: fs2)
        from rfl]
      unfold serCell
      by_cases hq : needsQuote f = true
      · rw [if_pos hq]
        rw [show ('"' :: (escBody f ++ ['"'])) ++ ',' :: serRow (f2 :: fs2) =
            '"' :: (escBody f ++ '"' :: (',' :: serRow (f2 :: fs2))) from by
          simp]
        rw [show parseAux 0 [] ('"' :: (escBody f ++ '"' ::
            (',' :: serRow (f2 :: fs2)))) =
            parseAux 1 [] (escBody f ++ '"' :: (',' :: serRow (f2 :: fs2)))
          from by simp [parseAux]]
        rw [parseAux_quoted f [] (',' :: serRow (f2 :: fs2))]
        rw [show parseAux 2 (f.reverse ++ []) (',' :: serRow (f2 :: fs2)) =
            (f.reverse ++ []).reverse :: parseAux 0 [] (serRow (f2 :: fs2))
          from by simp [parseAux]]
        rw [ih (by simp)]
        simp
      · rw [if_neg hq]
        rw [parseAux_unquoted f [] (',' :: serRow (f2 :: fs2))
          (no_special_of_not_needsQuote (by simpa using hq))]
        rw [show parseAux 0 (f.reverse ++ []) (',' :: serRow (f2 :: fs2)) =
            (f.reverse ++ []).reverse :: parseAux 0 [] (serRow (f2 :: fs2))
          from by simp [parseAux]]
        rw [ih (by simp)]
        simp

theorem parseCsv_serCsv {recs : List (List Str)}
    (hnl : ∀ r ∈ recs, ∀ f ∈ r, '\n' ∉ f)
    (hne : ∀ r ∈ recs, r ≠ []) :
    parseCsv (serCsv recs) = fixedHeader :: recs := by
  unfold serCsv parseCsv
  have hlines : ∀ l ∈ (serRow fixedHeader :: recs.map serRow), '\n' ∉ l := by
    intro l hl
    rcases List.mem_cons.mp hl with rfl | hl
    · exact no_nl_serRow (by decide)
    · obtain ⟨r, hr, rfl⟩ := List.mem_map.mp hl
      exact no_nl_serRow (hnl r hr)
  rw [splitNl_joinLines hlines]
  have hlast : ((serRow fixedHeader :: List.map serRow recs) ++ [[]]).getLast? =
      some ([] : Str) := List.getLast?_concat _
  show List.map parseRow
      (if ((serRow fixedHeader :: List.map serRow recs) ++ [[]]).getLast? =
          some [] then
        ((serRow fixedHeader :: List.map serRow recs) ++ [[]]).dropLast
      else (serRow fixedHeader :: List.map serRow recs) ++ [[]]) =
    fixedHeader :: recs
  rw [hlast, if_pos rfl, List.dropLast_concat]
  rw [List.map_cons]
  rw [show parseRow (serRow fixedHeader) = fixedHeader from
    parseAux_serRow fixedHeader (by decide)]
  congr 1
  rw [List.map_map]
  rw [show List.map (parseRow ∘ serRow) recs = List.map id recs from
    List.map_congr_left (fun r hr => parseAux_serRow r (hne r hr))]
  exact List.map_id recs

theorem no_nl_normWs (s : Str) : '\n' ∉ normWs s := by
  intro h
  have := normWs_spaces h (by decide)
  exact absurd this (by decide)

/-- C7: serializing a record set to CSV (header line, quote-minimal
fields, newline-terminated lines) and re-parsing the stream against the
same fixed header recovers the record set field-for-field, in order; and
every normalized cell is newline-free, so the pipeline's records satisfy
the side condition. -/
theorem c7_csv_roundtrip :
    (∀ recs : List (List Str), recs ≠ [] →
        (∀ r ∈ recs, ∀ f ∈ r, '\n' ∉ f) →
        (∀ r ∈ recs, r ≠ []) →
        reparse (serCsv recs) = some recs)
    ∧ (∀ c : Option Str, '\n' ∉ normCell c) := by
  constructor
  · intro recs _ hnl hne
    unfold reparse
    rw [parseCsv_serCsv hnl hne]
    simp
  · intro c
    exact no_nl_normWs (pyStr c)

/-- C7 witness: a one-record set with a comma, a quote and an empty field
round-trips. -/
theorem c7_csv_roundtrip_witness :
    ([[str "1", str "a,b", str "say \"hi\"", [], str "x", str "y"]] ≠
      ([] : List (List Str)))
    ∧ reparse (serCsv [[str "1", str "a,b", str "say \"hi\"", [], str "x",
        str "y"]]) =
      some [[str "1", str "a,b", str "say \"hi\"", [], str "x", str "y"]] := by
  refine ⟨by decide, c7_csv_roundtrip.1 _ (by decide) (by decide) (by decide)⟩
